import Mathlib

/-!
Verification of the machine-integer value model (src/math/num.rs) and the
program-dependence-graph construction and export (src/flow/pdg.rs,
src/flow/visualize.rs) of the symflow PDG repository.

The Rust source is shallowly embedded: machine integers are natural numbers
with explicit reduction modulo powers of two, the `typed!` per-width casts
become `% 2^w` (unsigned) and a two's-complement reinterpretation into `Int`
(signed), `HashMap`s become association lists, and fatal failure paths
(`check_compatible`, panicking indexing) become `Option`.
-/

namespace Symflow

/-- Different width numeric types (`DataType` in src/math/num.rs). -/
inductive DataType where
  | N8
  | N16
  | N32
  | N64
deriving DecidableEq

/-- Number of bytes this data type needs to be stored (`DataType::bytes`). -/
def DataType.bytes : DataType → Nat
  | .N8 => 1
  | .N16 => 2
  | .N32 => 4
  | .N64 => 8

/-- Number of bits this data type needs to be stored (`DataType::bits`). -/
def DataType.bits (dt : DataType) : Nat := dt.bytes * 8

/-- Variable data type integer with machine semantics (`Integer` in
src/math/num.rs): a data type together with the raw 64-bit backing value. -/
structure Integer where
  ty : DataType
  val : Nat
deriving DecidableEq

/-- The unsigned reinterpretation of a raw backing value at width `w`
(the `n as uN` cast of the `typed!` macro). -/
def ubits (w : Nat) (n : Nat) : Nat := n % 2 ^ w

/-- The signed reinterpretation of a raw backing value at width `w`
(the `n as iN` cast of the `typed!` macro): two's complement decoding. -/
def toSigned (w : Nat) (n : Nat) : Int :=
  if n % 2 ^ w < 2 ^ (w - 1) then ((n % 2 ^ w : Nat) : Int)
  else ((n % 2 ^ w : Nat) : Int) - 2 ^ w

/-- The `w`-bit two's complement pattern of a signed value (the bit pattern
an `iN` value is stored as). -/
def sbits (w : Nat) (i : Int) : Nat := (i % (2 ^ w : Int)).toNat

/-- An `iN` value cast `as u64`: Rust sign-extends into the 64-bit store. -/
def intToU64 (i : Int) : Nat := (i % (2 ^ 64 : Int)).toNat

/-- Wrap-around of an exact signed result into the `w`-bit signed range
(`wrapping_add`/`wrapping_sub`/`wrapping_mul` on `iN`). -/
def wrapSigned (w : Nat) (i : Int) : Int :=
  (i + 2 ^ (w - 1)) % (2 ^ w : Int) - 2 ^ (w - 1)

/-- Overflow bit of `iN::overflowing_add` for in-range operands: the exact
sum leaves the representable signed range. -/
def addOverflows (w : Nat) (a b : Int) : Bool :=
  decide (a + b < -(2 ^ (w - 1) : Int)) || decide ((2 ^ (w - 1) : Int) ≤ a + b)

/-- Overflow bit of `iN::overflowing_sub` for in-range operands. -/
def subOverflows (w : Nat) (a b : Int) : Bool :=
  decide (a - b < -(2 ^ (w - 1) : Int)) || decide ((2 ^ (w - 1) : Int) ≤ a - b)

/-- Overflow bit of `iN::overflowing_mul` for in-range operands. -/
def mulOverflows (w : Nat) (a b : Int) : Bool :=
  decide (a * b < -(2 ^ (w - 1) : Int)) || decide ((2 ^ (w - 1) : Int) ≤ a * b)

/-- Number of binary digits of `n` that fall below width `w`: the count of
bit positions `i < w` with `2^i ≤ n`. -/
def bitWidth (w : Nat) (n : Nat) : Nat :=
  ((List.range w).filter (fun i => decide (2 ^ i ≤ n))).length

/-- `leading_zeros` of the `w`-bit pattern `n`: the width minus the number
of binary digits used. -/
def leadingZeros (w : Nat) (n : Nat) : Nat := w - bitWidth w n

/-- Arithmetic operation flags (`Flags` in src/math/num.rs). -/
structure Flags where
  zero : Bool
  sign : Bool
  overflow : Bool
deriving DecidableEq

/-- The `flags!` macro: default flags computed from the signed result `t`
at width `w` (`zero: t == 0`, `sign: t.leading_zeros() == 0`,
`overflow: false`). -/
def defaultFlags (w : Nat) (t : Int) : Flags :=
  { zero := decide (t = 0)
    sign := decide (leadingZeros w (sbits w t) = 0)
    overflow := false }

/-- Modelled from the spec: `check_compatible` lives in `crate::helper`,
which is not under src/. Per the spec's failure-mode section an operation
on mismatched `DataType`s fails fatally and must not be silently coerced;
the abort is modelled by the checked operations returning `none` exactly
when this check fails. -/
def check_compatible (a b : DataType) : Bool := a == b

/-- `Integer::add` (the `binop!` macro with `wrapping_add`, unsigned). -/
def Integer.add (x y : Integer) : Option Integer :=
  if check_compatible x.ty y.ty then
    some ⟨x.ty, (ubits x.ty.bits x.val + ubits x.ty.bits y.val) % 2 ^ x.ty.bits⟩
  else none

/-- `Integer::sub` (the `binop!` macro with `wrapping_sub`, unsigned). -/
def Integer.sub (x y : Integer) : Option Integer :=
  if check_compatible x.ty y.ty then
    some ⟨x.ty, (ubits x.ty.bits x.val + (2 ^ x.ty.bits - ubits x.ty.bits y.val)) % 2 ^ x.ty.bits⟩
  else none

/-- `Integer::mul` (the `binop!` macro with `wrapping_mul`, unsigned). -/
def Integer.mul (x y : Integer) : Option Integer :=
  if check_compatible x.ty y.ty then
    some ⟨x.ty, (ubits x.ty.bits x.val * ubits x.ty.bits y.val) % 2 ^ x.ty.bits⟩
  else none

/-- `Integer::bitand` (the `binop!` macro with `bitand`, unsigned). -/
def Integer.bitand (x y : Integer) : Option Integer :=
  if check_compatible x.ty y.ty then
    some ⟨x.ty, ubits x.ty.bits x.val &&& ubits x.ty.bits y.val⟩
  else none

/-- `Integer::bitor` (the `binop!` macro with `bitor`, unsigned). -/
def Integer.bitor (x y : Integer) : Option Integer :=
  if check_compatible x.ty y.ty then
    some ⟨x.ty, ubits x.ty.bits x.val ||| ubits x.ty.bits y.val⟩
  else none

/-- `Integer::bitnot`: bitwise complement of the unsigned reinterpretation. -/
def Integer.bitnot (x : Integer) : Integer :=
  ⟨x.ty, (2 ^ x.ty.bits - 1) - ubits x.ty.bits x.val⟩

/-- `Integer::equal`: unsigned bit-pattern equality at matching width. -/
def Integer.equal (x y : Integer) : Option Bool :=
  if check_compatible x.ty y.ty then
    some (decide (ubits x.ty.bits x.val = ubits x.ty.bits y.val))
  else none

/-- The `PartialEq` implementation for `Integer` delegates to
`Integer::equal` (and therefore inherits its fatal width check). -/
def Integer.peq (x y : Integer) : Option Bool := Integer.equal x y

/-- `Integer::less_than` (the `cmp_maybe_signed!` macro with `lt`). -/
def Integer.less_than (x y : Integer) (signed : Bool) : Option Bool :=
  if check_compatible x.ty y.ty then
    some (if signed then decide (toSigned x.ty.bits x.val < toSigned x.ty.bits y.val)
          else decide (ubits x.ty.bits x.val < ubits x.ty.bits y.val))
  else none

/-- `Integer::less_equal` (the `cmp_maybe_signed!` macro with `le`). -/
def Integer.less_equal (x y : Integer) (signed : Bool) : Option Bool :=
  if check_compatible x.ty y.ty then
    some (if signed then decide (toSigned x.ty.bits x.val ≤ toSigned x.ty.bits y.val)
          else decide (ubits x.ty.bits x.val ≤ ubits x.ty.bits y.val))
  else none

/-- `Integer::greater_than` (the `cmp_maybe_signed!` macro with `gt`). -/
def Integer.greater_than (x y : Integer) (signed : Bool) : Option Bool :=
  if check_compatible x.ty y.ty then
    some (if signed then decide (toSigned x.ty.bits y.val < toSigned x.ty.bits x.val)
          else decide (ubits x.ty.bits y.val < ubits x.ty.bits x.val))
  else none

/-- `Integer::greater_equal` (the `cmp_maybe_signed!` macro with `ge`). -/
def Integer.greater_equal (x y : Integer) (signed : Bool) : Option Bool :=
  if check_compatible x.ty y.ty then
    some (if signed then decide (toSigned x.ty.bits y.val ≤ toSigned x.ty.bits x.val)
          else decide (ubits x.ty.bits y.val ≤ ubits x.ty.bits x.val))
  else none

/-- `Integer::from_ptr`: a pointer-sized integer. -/
def Integer.from_ptr (value : Nat) : Integer := ⟨.N64, value⟩

/-- `Integer::from_bool`: 0 or 1 at the given width. -/
def Integer.from_bool (value : Bool) (data_type : DataType) : Integer :=
  ⟨data_type, if value then 1 else 0⟩

/-- A byte as stored in the codec buffers (`u8`). -/
abbrev Byte := Fin 256

/-- The little-endian digits written by `to_bytes`: `k` bytes of `n`. -/
def leBytes : Nat → Nat → List Byte
  | 0, _ => []
  | k + 1, n => ⟨n % 256, Nat.mod_lt _ (by decide)⟩ :: leBytes k (n / 256)

/-- The little-endian value read by `LittleEndian::read_uN`. -/
def readLE : List Byte → Nat
  | [] => 0
  | b :: bs => b.val + 256 * readLE bs

/-- `Integer::from_bytes`: read an integer of a specific type from bytes.
The reads index the slice, which panics (modelled by `none`) when fewer than
`data_type.bytes()` bytes are present. -/
def Integer.from_bytes (bytes : List Byte) (data_type : DataType) : Option Integer :=
  if data_type.bytes ≤ bytes.length then
    some ⟨data_type, readLE (bytes.take data_type.bytes)⟩
  else none

/-- `Integer::to_bytes`: convert this integer into bytes. -/
def Integer.to_bytes (x : Integer) : List Byte := leBytes x.ty.bytes x.val

/-- `Integer::cast`: reinterpret the source value under `signed` (the outer
`typed!`), then truncate or zero-extend that 64-bit image to the new width
(the inner `typed!`, always unsigned). -/
def Integer.cast (x : Integer) (new_type : DataType) (signed : Bool) : Integer :=
  let src : Nat := if signed then intToU64 (toSigned x.ty.bits x.val) else ubits x.ty.bits x.val
  ⟨new_type, ubits new_type.bits src⟩

/-- Two's complement bitwise and of `w`-bit signed values (`iN` `bitand`). -/
def sand (w : Nat) (a b : Int) : Int :=
  toSigned w (sbits w a &&& sbits w b)

/-- Two's complement bitwise or of `w`-bit signed values (`iN` `bitor`). -/
def sor (w : Nat) (a b : Int) : Int :=
  toSigned w (sbits w a ||| sbits w b)

/-- `Integer::flagged_add` (the `flagged!` macro with `wrapping_add` on the
signed reinterpretations and overflow from `overflowing_add`). -/
def Integer.flagged_add (x y : Integer) : Option (Integer × Flags) :=
  if check_compatible x.ty y.ty then
    let w := x.ty.bits
    let a := toSigned w x.val
    let b := toSigned w y.val
    let sum := wrapSigned w (a + b)
    some (⟨x.ty, intToU64 sum⟩, { defaultFlags w sum with overflow := addOverflows w a b })
  else none

/-- `Integer::flagged_sub` (the `flagged!` macro with `wrapping_sub`). -/
def Integer.flagged_sub (x y : Integer) : Option (Integer × Flags) :=
  if check_compatible x.ty y.ty then
    let w := x.ty.bits
    let a := toSigned w x.val
    let b := toSigned w y.val
    let diff := wrapSigned w (a - b)
    some (⟨x.ty, intToU64 diff⟩, { defaultFlags w diff with overflow := subOverflows w a b })
  else none

/-- `Integer::flagged_mul` (the `flagged!` macro with `wrapping_mul`; the
zero and sign flags are hard-coded to false in the source). -/
def Integer.flagged_mul (x y : Integer) : Option (Integer × Flags) :=
  if check_compatible x.ty y.ty then
    let w := x.ty.bits
    let a := toSigned w x.val
    let b := toSigned w y.val
    let product := wrapSigned w (a * b)
    some (⟨x.ty, intToU64 product⟩,
          { zero := false, sign := false, overflow := mulOverflows w a b })
  else none

/-- `Integer::flagged_and` (the `flagged!` macro with `bitand`; overflow is
hard-coded to false). -/
def Integer.flagged_and (x y : Integer) : Option (Integer × Flags) :=
  if check_compatible x.ty y.ty then
    let w := x.ty.bits
    let a := toSigned w x.val
    let b := toSigned w y.val
    let t := sand w a b
    some (⟨x.ty, intToU64 t⟩, { defaultFlags w t with overflow := false })
  else none

/-- `Integer::flagged_or` (the `flagged!` macro with `bitor`; overflow is
hard-coded to false). -/
def Integer.flagged_or (x y : Integer) : Option (Integer × Flags) :=
  if check_compatible x.ty y.ty then
    let w := x.ty.bits
    let a := toSigned w x.val
    let b := toSigned w y.val
    let t := sor w a b
    some (⟨x.ty, intToU64 t⟩, { defaultFlags w t with overflow := false })
  else none

/-! ### Arithmetic toolkit for the two's complement embedding -/

lemma two_pow_pred_int (w : Nat) (hw : 0 < w) : (2 : Int) ^ w = 2 ^ (w - 1) * 2 := by
  conv_lhs => rw [show w = (w - 1) + 1 from by omega]
  rw [pow_succ]

lemma two_pow_cast (w : Nat) : ((2 ^ w : Nat) : Int) = (2 : Int) ^ w := by
  push_cast
  ring

lemma dt_bits_pos (dt : DataType) : 0 < dt.bits := by cases dt <;> decide

lemma dt_bits_le (dt : DataType) : dt.bits ≤ 64 := by cases dt <;> decide

lemma int_sub_pow_emod (a m : Int) : (a - m) % m = a % m := by
  rw [show a - m = a + m * (-1) from by ring, Int.add_mul_emod_self_left]

/-- `wrapSigned` lands in the `w`-bit signed range. -/
lemma wrapSigned_mem (w : Nat) (hw : 0 < w) (i : Int) :
    -(2 ^ (w - 1) : Int) ≤ wrapSigned w i ∧ wrapSigned w i < 2 ^ (w - 1) := by
  unfold wrapSigned
  have h0 : (0 : Int) < 2 ^ w := by positivity
  have h1 := Int.emod_nonneg (i + 2 ^ (w - 1)) (ne_of_gt h0)
  have h2 := Int.emod_lt_of_pos (i + 2 ^ (w - 1)) h0
  have h3 := two_pow_pred_int w hw
  omega

/-- `wrapSigned` preserves the residue modulo `2^w`. -/
lemma wrapSigned_emod (w : Nat) (i : Int) : wrapSigned w i % 2 ^ w = i % 2 ^ w := by
  unfold wrapSigned
  have h : (i + 2 ^ (w - 1)) % 2 ^ w - 2 ^ (w - 1) =
      i - 2 ^ w * ((i + 2 ^ (w - 1)) / 2 ^ w) := by
    rw [Int.emod_def]
    ring
  rw [h, show i - 2 ^ w * ((i + 2 ^ (w - 1)) / 2 ^ w) =
    i + 2 ^ w * (-((i + 2 ^ (w - 1)) / 2 ^ w)) from by ring, Int.add_mul_emod_self_left]

/-- A `w`-bit signed value is determined by its residue modulo `2^w`. -/
lemma signed_eq_of_emod_eq (w : Nat) (hw : 0 < w) {s t : Int}
    (hs1 : -(2 ^ (w - 1)) ≤ s) (hs2 : s < 2 ^ (w - 1))
    (ht1 : -(2 ^ (w - 1)) ≤ t) (ht2 : t < 2 ^ (w - 1))
    (h : s % 2 ^ w = t % 2 ^ w) : s = t := by
  have hd : (2 ^ w : Int) ∣ (s - t) := by
    apply Int.dvd_of_emod_eq_zero
    rw [Int.sub_emod, h, sub_self, Int.zero_emod]
  have h3 := two_pow_pred_int w hw
  have habs : |s - t| < 2 ^ w := by
    rw [abs_lt]
    constructor <;> omega
  have := Int.eq_zero_of_abs_lt_dvd hd habs
  omega

/-- In-range values wrap to themselves. -/
lemma wrapSigned_eq_self (w : Nat) (hw : 0 < w) {i : Int}
    (h1 : -(2 ^ (w - 1)) ≤ i) (h2 : i < 2 ^ (w - 1)) : wrapSigned w i = i := by
  refine signed_eq_of_emod_eq w hw ?_ ?_ h1 h2 (wrapSigned_emod w i)
  · exact (wrapSigned_mem w hw i).1
  · exact (wrapSigned_mem w hw i).2

/-- `wrapSigned w i = i` exactly when `i` is representable. -/
lemma wrapSigned_eq_iff (w : Nat) (hw : 0 < w) (i : Int) :
    wrapSigned w i = i ↔ (-(2 ^ (w - 1)) ≤ i ∧ i < 2 ^ (w - 1)) := by
  constructor
  · intro h
    have := (wrapSigned_mem w hw i).1
    have := (wrapSigned_mem w hw i).2
    omega
  · intro h
    exact wrapSigned_eq_self w hw h.1 h.2

/-- `toSigned` lands in the `w`-bit signed range. -/
lemma toSigned_mem (w : Nat) (hw : 0 < w) (n : Nat) :
    -(2 ^ (w - 1) : Int) ≤ toSigned w n ∧ toSigned w n < 2 ^ (w - 1) := by
  unfold toSigned
  have h3 := two_pow_pred_int w hw
  have hm : n % 2 ^ w < 2 ^ w := Nat.mod_lt _ (by positivity)
  have hb1 := two_pow_cast w
  have hb2 := two_pow_cast (w - 1)
  split <;> constructor <;> omega

/-- `toSigned` preserves the residue modulo `2^w`. -/
lemma toSigned_emod (w : Nat) (n : Nat) : toSigned w n % 2 ^ w = (n : Int) % 2 ^ w := by
  unfold toSigned
  split
  · rw [Int.natCast_mod, two_pow_cast, Int.emod_emod_of_dvd _ dvd_rfl]
  · rw [int_sub_pow_emod, Int.natCast_mod, two_pow_cast, Int.emod_emod_of_dvd _ dvd_rfl]

/-- The cast of `sbits` back to `Int` is the nonnegative residue. -/
lemma sbits_cast (w : Nat) (t : Int) : ((sbits w t : Nat) : Int) = t % 2 ^ w := by
  unfold sbits
  exact Int.toNat_of_nonneg (Int.emod_nonneg t (by positivity))

lemma sbits_lt (w : Nat) (t : Int) : sbits w t < 2 ^ w := by
  have h := Int.emod_lt_of_pos t (b := (2 ^ w : Int)) (by positivity)
  have h2 := sbits_cast w t
  have hb1 := two_pow_cast w
  omega

/-- The cast of `intToU64` back to `Int` is the nonnegative residue mod `2^64`. -/
lemma intToU64_cast (t : Int) : ((intToU64 t : Nat) : Int) = t % 2 ^ 64 := by
  unfold intToU64
  exact Int.toNat_of_nonneg (Int.emod_nonneg t (by positivity))

/-- Truncating the 64-bit image of a signed value to `w ≤ 64` bits recovers
its `w`-bit pattern. -/
lemma intToU64_mod (w : Nat) (hw64 : w ≤ 64) (t : Int) :
    intToU64 t % 2 ^ w = sbits w t := by
  have h1 : (t % 2 ^ 64) % 2 ^ w = t % 2 ^ w :=
    Int.emod_emod_of_dvd t (pow_dvd_pow 2 hw64)
  have h2 := intToU64_cast t
  have h3 := sbits_cast w t
  have h4 : ((intToU64 t % 2 ^ w : Nat) : Int) = (t % 2 ^ 64) % 2 ^ w := by
    rw [Int.natCast_mod, h2, two_pow_cast]
  omega

/-- Decoding the sign-extended 64-bit image recovers an in-range value. -/
lemma toSigned_intToU64 (w : Nat) (hw : 0 < w) (hw64 : w ≤ 64) {t : Int}
    (h1 : -(2 ^ (w - 1)) ≤ t) (h2 : t < 2 ^ (w - 1)) :
    toSigned w (intToU64 t) = t := by
  refine signed_eq_of_emod_eq w hw (toSigned_mem w hw _).1 (toSigned_mem w hw _).2 h1 h2 ?_
  rw [toSigned_emod, intToU64_cast, Int.emod_emod_of_dvd t (pow_dvd_pow 2 hw64)]

/-- Decoding the `w`-bit pattern of an in-range value recovers it. -/
lemma toSigned_sbits (w : Nat) (hw : 0 < w) {t : Int}
    (h1 : -(2 ^ (w - 1)) ≤ t) (h2 : t < 2 ^ (w - 1)) :
    toSigned w (sbits w t) = t := by
  refine signed_eq_of_emod_eq w hw (toSigned_mem w hw _).1 (toSigned_mem w hw _).2 h1 h2 ?_
  rw [toSigned_emod, sbits_cast, Int.emod_emod_of_dvd t dvd_rfl]

/-- The `w`-bit pattern of the signed decoding of a raw value is the raw
value reduced to `w` bits. -/
lemma sbits_toSigned (w : Nat) (n : Nat) : sbits w (toSigned w n) = n % 2 ^ w := by
  have h1 : ((sbits w (toSigned w n) : Nat) : Int) = (n : Int) % 2 ^ w := by
    rw [sbits_cast, toSigned_emod]
  have h2 : ((n % 2 ^ w : Nat) : Int) = (n : Int) % 2 ^ w := by
    rw [Int.natCast_mod, two_pow_cast]
  omega

/-- An in-range signed value has pattern 0 exactly when it is 0. -/
lemma sbits_eq_zero_iff (w : Nat) (hw : 0 < w) {t : Int}
    (h1 : -(2 ^ (w - 1)) ≤ t) (h2 : t < 2 ^ (w - 1)) :
    sbits w t = 0 ↔ t = 0 := by
  constructor
  · intro h
    have h0 : toSigned w (sbits w t) = t := toSigned_sbits w hw h1 h2
    rw [h] at h0
    have : toSigned w 0 = 0 := by
      unfold toSigned
      have : (0 : Nat) % 2 ^ w = 0 := Nat.zero_mod _
      rw [this]
      have hp : (0 : Nat) < 2 ^ (w - 1) := by positivity
      simp [hp]
    omega
  · intro h
    subst h
    unfold sbits
    simp

lemma bitWidth_le (w n : Nat) : bitWidth w n ≤ w := by
  unfold bitWidth
  calc ((List.range w).filter (fun i => decide (2 ^ i ≤ n))).length
      ≤ (List.range w).length := List.length_filter_le _ _
    _ = w := List.length_range w

/-- The code's sign test `leading_zeros == 0` holds exactly when the high
bit of the `w`-bit pattern is set. -/
lemma leadingZeros_eq_zero_iff (w n : Nat) (hw : 0 < w) :
    leadingZeros w n = 0 ↔ 2 ^ (w - 1) ≤ n := by
  unfold leadingZeros
  have hle := bitWidth_le w n
  constructor
  · intro h
    have hbw : bitWidth w n = w := by omega
    have hlen : ((List.range w).filter (fun i => decide (2 ^ i ≤ n))).length =
        (List.range w).length := by
      rw [List.length_range]
      exact hbw
    have hfil : (List.range w).filter (fun i => decide (2 ^ i ≤ n)) = List.range w :=
      List.Sublist.eq_of_length (List.filter_sublist _) hlen
    have hmem : w - 1 ∈ (List.range w).filter (fun i => decide (2 ^ i ≤ n)) := by
      rw [hfil]
      exact List.mem_range.mpr (by omega)
    have := (List.mem_filter.mp hmem).2
    simpa using this
  · intro h
    have hall : ∀ i ∈ List.range w, decide (2 ^ i ≤ n) = true := by
      intro i hi
      have hi' : i ≤ w - 1 := by
        have := List.mem_range.mp hi
        omega
      simp only [decide_eq_true_eq]
      exact le_trans (Nat.pow_le_pow_right (by norm_num) hi') h
    have hfil := List.filter_eq_self.mpr hall
    have : bitWidth w n = w := by
      unfold bitWidth
      rw [hfil, List.length_range]
    omega

lemma length_leBytes (k : Nat) : ∀ n, (leBytes k n).length = k := by
  induction k with
  | zero => intro n; rfl
  | succ k ih => intro n; simp [leBytes, ih]

lemma readLE_leBytes (k : Nat) : ∀ n, readLE (leBytes k n) = n % 256 ^ k := by
  induction k with
  | zero => intro n; simp [leBytes, readLE, Nat.mod_one]
  | succ k ih =>
      intro n
      have hm : n % (256 * 256 ^ k) = n % 256 + 256 * (n / 256 % 256 ^ k) := Nat.mod_mul
      simp only [leBytes, readLE, ih]
      rw [pow_succ, mul_comm (256 ^ k) 256, hm]

lemma readLE_lt (bs : List Byte) : readLE bs < 256 ^ bs.length := by
  induction bs with
  | nil => simp [readLE]
  | cons b bs ih =>
      have hb := b.isLt
      simp only [readLE, List.length_cons]
      have : (256 : Nat) ^ (bs.length + 1) = 256 ^ bs.length * 256 := pow_succ 256 _
      omega

lemma two_pow_bits (dt : DataType) : 2 ^ dt.bits = 256 ^ dt.bytes := by
  cases dt <;> decide

/-! ### Specification-side characterization of the flag computations -/

/-- The wrapped result decoded from the stored 64-bit image. -/
lemma decode_wrapped (w : Nat) (hw : 0 < w) (hw64 : w ≤ 64) (S : Int) :
    toSigned w (intToU64 (wrapSigned w S)) = wrapSigned w S :=
  toSigned_intToU64 w hw hw64 (wrapSigned_mem w hw S).1 (wrapSigned_mem w hw S).2

/-- The code's zero flag agrees with "the stored result pattern is zero". -/
lemma zero_flag_spec (w : Nat) (hw : 0 < w) (hw64 : w ≤ 64) {t : Int}
    (h1 : -(2 ^ (w - 1)) ≤ t) (h2 : t < 2 ^ (w - 1)) :
    decide (t = 0) = decide (intToU64 t % 2 ^ w = 0) := by
  rw [intToU64_mod w hw64]
  exact (decide_eq_decide.mpr (sbits_eq_zero_iff w hw h1 h2)).symm

/-- The code's sign flag agrees with "the high bit of the stored result
pattern is set". -/
lemma sign_flag_spec (w : Nat) (hw : 0 < w) (hw64 : w ≤ 64) (t : Int) :
    decide (leadingZeros w (sbits w t) = 0) = decide (2 ^ (w - 1) ≤ intToU64 t % 2 ^ w) := by
  rw [intToU64_mod w hw64]
  exact decide_eq_decide.mpr (leadingZeros_eq_zero_iff w _ hw)

/-- The hardware range test for overflow agrees with "wrapping changed the
exact result". -/
lemma overflow_flag_spec (w : Nat) (hw : 0 < w) (S : Int) :
    (decide (S < -(2 ^ (w - 1) : Int)) || decide ((2 ^ (w - 1) : Int) ≤ S)) =
      decide (wrapSigned w S ≠ S) := by
  have hiff := wrapSigned_eq_iff w hw S
  by_cases h1 : S < -(2 ^ (w - 1) : Int)
  · have hne : wrapSigned w S ≠ S := by
      rw [Ne, hiff]
      intro hc
      omega
    simp [h1, hne]
  · by_cases h2 : (2 ^ (w - 1) : Int) ≤ S
    · have hne : wrapSigned w S ≠ S := by
        rw [Ne, hiff]
        intro hc
        omega
      simp [h1, h2, hne]
    · have heq : wrapSigned w S = S := hiff.mpr ⟨by omega, by omega⟩
      simp [h1, h2, heq]

/-- Claim C1: for every `DataType` and pair of raw operand values of that
type, `flagged_add` and `flagged_sub` compute the result under signed
reinterpretation at the declared width and return flags with
`zero = (result == 0)`, `sign` = high bit of the result pattern set, and
`overflow` = signed overflow of the underlying operation (i.e. wrapping
changed the exact result); `flagged_and` and `flagged_or` always return
`overflow = false`; and the five exact width-8/width-32 flag examples of
the specification hold. -/
theorem flagged_add_sub_flag_semantics : ∀ (dt : DataType) (a b : Nat),
    (∃ r f, Integer.flagged_add ⟨dt, a⟩ ⟨dt, b⟩ = some (r, f) ∧
      r.ty = dt ∧
      toSigned dt.bits r.val = wrapSigned dt.bits (toSigned dt.bits a + toSigned dt.bits b) ∧
      f.zero = decide (r.val % 2 ^ dt.bits = 0) ∧
      f.sign = decide (2 ^ (dt.bits - 1) ≤ r.val % 2 ^ dt.bits) ∧
      f.overflow = decide (wrapSigned dt.bits (toSigned dt.bits a + toSigned dt.bits b) ≠
        toSigned dt.bits a + toSigned dt.bits b)) ∧
    (∃ r f, Integer.flagged_sub ⟨dt, a⟩ ⟨dt, b⟩ = some (r, f) ∧
      r.ty = dt ∧
      toSigned dt.bits r.val = wrapSigned dt.bits (toSigned dt.bits a - toSigned dt.bits b) ∧
      f.zero = decide (r.val % 2 ^ dt.bits = 0) ∧
      f.sign = decide (2 ^ (dt.bits - 1) ≤ r.val % 2 ^ dt.bits) ∧
      f.overflow = decide (wrapSigned dt.bits (toSigned dt.bits a - toSigned dt.bits b) ≠
        toSigned dt.bits a - toSigned dt.bits b)) ∧
    (Integer.flagged_and ⟨dt, a⟩ ⟨dt, b⟩).map (fun p => p.2.overflow) = some false ∧
    (Integer.flagged_or ⟨dt, a⟩ ⟨dt, b⟩).map (fun p => p.2.overflow) = some false ∧
    (Integer.flagged_add ⟨.N8, 150⟩ ⟨.N8, 100⟩).map (fun p => p.2) =
      some ⟨false, true, false⟩ ∧
    (Integer.flagged_add ⟨.N8, 18446744073709551560⟩ ⟨.N8, 56⟩).map (fun p => p.2) =
      some ⟨true, false, false⟩ ∧
    (Integer.flagged_add ⟨.N8, 100⟩ ⟨.N8, 100⟩).map (fun p => p.2) =
      some ⟨false, true, true⟩ ∧
    (Integer.flagged_sub ⟨.N32, 3⟩ ⟨.N32, 4⟩).map (fun p => p.2) =
      some ⟨false, true, false⟩ ∧
    (Integer.flagged_sub ⟨.N8, 130⟩ ⟨.N8, 10⟩).map (fun p => p.2) =
      some ⟨false, false, true⟩ := by
  intro dt a b
  have hw := dt_bits_pos dt
  have hw64 := dt_bits_le dt
  refine ⟨?_, ?_, ?_, ?_, by decide, by decide, by decide, by decide, by decide⟩
  · simp only [Integer.flagged_add, check_compatible, beq_self_eq_true, if_true]
    refine ⟨_, _, rfl, rfl, ?_, ?_, ?_, ?_⟩
    · exact decode_wrapped dt.bits hw hw64 _
    · simp only [defaultFlags]
      exact zero_flag_spec dt.bits hw hw64 (wrapSigned_mem _ hw _).1 (wrapSigned_mem _ hw _).2
    · simp only [defaultFlags]
      exact sign_flag_spec dt.bits hw hw64 _
    · simp only [addOverflows]
      exact overflow_flag_spec dt.bits hw _
  · simp only [Integer.flagged_sub, check_compatible, beq_self_eq_true, if_true]
    refine ⟨_, _, rfl, rfl, ?_, ?_, ?_, ?_⟩
    · exact decode_wrapped dt.bits hw hw64 _
    · simp only [defaultFlags]
      exact zero_flag_spec dt.bits hw hw64 (wrapSigned_mem _ hw _).1 (wrapSigned_mem _ hw _).2
    · simp only [defaultFlags]
      exact sign_flag_spec dt.bits hw hw64 _
    · simp only [subOverflows]
      exact overflow_flag_spec dt.bits hw _
  · simp only [Integer.flagged_and, check_compatible, beq_self_eq_true, if_true]
    rfl
  · simp only [Integer.flagged_or, check_compatible, beq_self_eq_true, if_true]
    rfl

/-- Claim C6: for every pair of same-typed operands, `flagged_mul` returns
flags whose zero and sign fields are unconditionally false and whose
overflow field is true exactly when the signed multiplication at the
declared width overflows (wrapping changed the exact product); the result
integer is the wrapped signed product at that width. -/
theorem flagged_mul_semantics : ∀ (dt : DataType) (a b : Nat),
    ∃ r f, Integer.flagged_mul ⟨dt, a⟩ ⟨dt, b⟩ = some (r, f) ∧
      r.ty = dt ∧
      toSigned dt.bits r.val = wrapSigned dt.bits (toSigned dt.bits a * toSigned dt.bits b) ∧
      f.zero = false ∧
      f.sign = false ∧
      f.overflow = decide (wrapSigned dt.bits (toSigned dt.bits a * toSigned dt.bits b) ≠
        toSigned dt.bits a * toSigned dt.bits b) := by
  intro dt a b
  have hw := dt_bits_pos dt
  have hw64 := dt_bits_le dt
  simp only [Integer.flagged_mul, check_compatible, beq_self_eq_true, if_true]
  refine ⟨_, _, rfl, rfl, ?_, rfl, rfl, ?_⟩
  · exact decode_wrapped dt.bits hw hw64 _
  · simp only [mulOverflows]
    exact overflow_flag_spec dt.bits hw _

/-- Reducing the pattern of a `w`-bit decoded value to `m ≤ w` bits is the
same as reducing the raw value to `m` bits. -/
lemma sbits_toSigned_small (m w : Nat) (hm : m ≤ w) (n : Nat) :
    sbits m (toSigned w n) = n % 2 ^ m := by
  have h1 : toSigned w n % (2 : Int) ^ m = (toSigned w n % 2 ^ w) % 2 ^ m :=
    (Int.emod_emod_of_dvd _ (pow_dvd_pow 2 hm)).symm
  rw [toSigned_emod] at h1
  have h2 : ((n : Int) % (2 : Int) ^ w) % 2 ^ m = (n : Int) % 2 ^ m :=
    Int.emod_emod_of_dvd _ (pow_dvd_pow 2 hm)
  unfold sbits
  rw [h1, h2, ← two_pow_cast, ← Int.natCast_mod, Int.toNat_natCast]

/-- Claim C4: for every `DataType` and every representable value of that
type, reading back the bytes written by `to_bytes` recovers the value: the
fixed-length little-endian codec round-trips, both as a structural equality
and through `Integer::equal`. -/
theorem byte_roundtrip : ∀ x : Integer, x.val < 2 ^ x.ty.bits →
    Integer.from_bytes x.to_bytes x.ty = some x ∧
    (Integer.from_bytes x.to_bytes x.ty).bind (fun y => Integer.equal y x) = some true := by
  intro x h
  have hlen : (leBytes x.ty.bytes x.val).length = x.ty.bytes := length_leBytes _ _
  have hmain : Integer.from_bytes x.to_bytes x.ty = some x := by
    unfold Integer.from_bytes Integer.to_bytes
    rw [if_pos (le_of_eq hlen.symm), List.take_of_length_le (le_of_eq hlen),
      readLE_leBytes, ← two_pow_bits, Nat.mod_eq_of_lt h]
  refine ⟨hmain, ?_⟩
  rw [hmain]
  simp [Integer.equal, check_compatible]

/-- Witness for the byte round-trip at a concrete 32-bit value. -/
theorem byte_roundtrip_witness :
    Integer.from_bytes (Integer.to_bytes ⟨.N32, 3735928559⟩) .N32 = some ⟨.N32, 3735928559⟩ ∧
    (Integer.from_bytes (Integer.to_bytes ⟨.N32, 3735928559⟩) .N32).bind
      (fun y => Integer.equal y ⟨.N32, 3735928559⟩) = some true :=
  byte_roundtrip ⟨.N32, 3735928559⟩ (by decide)

/-- Claim C5: `cast` retags the value with the target type; widening with
`signed = true` sign-extends (the signed reinterpretation is preserved),
widening with `signed = false` zero-extends (the unsigned reinterpretation
is preserved), and narrowing truncates to the low bits of the target width
regardless of the signed flag; in particular 8-bit `0xF0` widens to
`0xFFF0` signed and `0x00F0` unsigned. -/
theorem cast_semantics : ∀ (x : Integer) (new_type : DataType) (signed : Bool),
    (x.cast new_type signed).ty = new_type ∧
    (x.ty.bits < new_type.bits → signed = true →
      toSigned new_type.bits (x.cast new_type signed).val = toSigned x.ty.bits x.val) ∧
    (x.ty.bits < new_type.bits → signed = false →
      (x.cast new_type signed).val = x.val % 2 ^ x.ty.bits) ∧
    (new_type.bits < x.ty.bits → (x.cast new_type signed).val = x.val % 2 ^ new_type.bits) ∧
    Integer.cast ⟨.N8, 240⟩ .N16 true = ⟨.N16, 65520⟩ ∧
    Integer.cast ⟨.N8, 240⟩ .N16 false = ⟨.N16, 240⟩ := by
  intro x nt signed
  refine ⟨rfl, ?_, ?_, ?_, by decide, by decide⟩
  · intro hlt hs
    subst hs
    have hv : (x.cast nt true).val = ubits nt.bits (intToU64 (toSigned x.ty.bits x.val)) := rfl
    rw [hv]
    unfold ubits
    rw [intToU64_mod nt.bits (dt_bits_le nt)]
    refine toSigned_sbits nt.bits (dt_bits_pos nt) ?_ ?_
    · have h1 := (toSigned_mem x.ty.bits (dt_bits_pos x.ty) x.val).1
      have h2 : (2 : Int) ^ (x.ty.bits - 1) ≤ 2 ^ (nt.bits - 1) :=
        pow_le_pow_right₀ (by norm_num) (by omega)
      omega
    · have h1 := (toSigned_mem x.ty.bits (dt_bits_pos x.ty) x.val).2
      have h2 : (2 : Int) ^ (x.ty.bits - 1) ≤ 2 ^ (nt.bits - 1) :=
        pow_le_pow_right₀ (by norm_num) (by omega)
      omega
  · intro hlt hs
    subst hs
    have hv : (x.cast nt false).val = ubits nt.bits (ubits x.ty.bits x.val) := rfl
    rw [hv]
    unfold ubits
    apply Nat.mod_eq_of_lt
    have h1 : x.val % 2 ^ x.ty.bits < 2 ^ x.ty.bits := Nat.mod_lt _ (by positivity)
    have h2 : (2 : Nat) ^ x.ty.bits ≤ 2 ^ nt.bits :=
      Nat.pow_le_pow_right (by norm_num) (le_of_lt hlt)
    omega
  · intro hlt
    cases signed with
    | true =>
        have hv : (x.cast nt true).val = ubits nt.bits (intToU64 (toSigned x.ty.bits x.val)) := rfl
        rw [hv]
        unfold ubits
        rw [intToU64_mod nt.bits (dt_bits_le nt)]
        exact sbits_toSigned_small nt.bits x.ty.bits (le_of_lt hlt) x.val
    | false =>
        have hv : (x.cast nt false).val = ubits nt.bits (ubits x.ty.bits x.val) := rfl
        rw [hv]
        unfold ubits
        exact Nat.mod_mod_of_dvd _ (pow_dvd_pow 2 (le_of_lt hlt))

/-- Witness for the cast semantics: signed widening preserves the signed
value, unsigned widening preserves the unsigned value, narrowing truncates. -/
theorem cast_semantics_witness :
    toSigned 16 ((Integer.cast ⟨.N8, 240⟩ .N16 true).val) = toSigned 8 240 ∧
    (Integer.cast ⟨.N8, 240⟩ .N16 false).val = 240 % 2 ^ 8 ∧
    (Integer.cast ⟨.N32, 305419896⟩ .N8 true).val = 305419896 % 2 ^ 8 :=
  ⟨(cast_semantics ⟨.N8, 240⟩ .N16 true).2.1 (by decide) rfl,
   (cast_semantics ⟨.N8, 240⟩ .N16 false).2.2.1 (by decide) rfl,
   (cast_semantics ⟨.N32, 305419896⟩ .N8 true).2.2.2.1 (by decide)⟩

/-- A checked operation yields `none` exactly on a width mismatch. -/
lemma checked_eq_none_iff {α : Type} {a b : DataType} {v : α} :
    (if check_compatible a b then some v else none) = none ↔ a ≠ b := by
  by_cases h : a = b
  · subst h
    simp [check_compatible]
  · simp [check_compatible, h]

/-- Claim C7: every binary operation of the integer model — the wrapping
arithmetic and bitwise operations, `equal` and the `PartialEq` comparison
built on it, the signedness-parametric comparisons, and all flagged
operations — aborts (modelled as `none`) exactly when the two operands
have different `DataType`s; with equal types the failure branch is
unreachable and no silent coercion ever happens. -/
theorem mismatched_types_fail : ∀ (x y : Integer) (sgn : Bool),
    ((x.add y) = none ↔ x.ty ≠ y.ty) ∧
    ((x.sub y) = none ↔ x.ty ≠ y.ty) ∧
    ((x.mul y) = none ↔ x.ty ≠ y.ty) ∧
    ((x.bitand y) = none ↔ x.ty ≠ y.ty) ∧
    ((x.bitor y) = none ↔ x.ty ≠ y.ty) ∧
    ((x.equal y) = none ↔ x.ty ≠ y.ty) ∧
    ((x.peq y) = none ↔ x.ty ≠ y.ty) ∧
    ((x.less_than y sgn) = none ↔ x.ty ≠ y.ty) ∧
    ((x.less_equal y sgn) = none ↔ x.ty ≠ y.ty) ∧
    ((x.greater_than y sgn) = none ↔ x.ty ≠ y.ty) ∧
    ((x.greater_equal y sgn) = none ↔ x.ty ≠ y.ty) ∧
    ((x.flagged_add y) = none ↔ x.ty ≠ y.ty) ∧
    ((x.flagged_sub y) = none ↔ x.ty ≠ y.ty) ∧
    ((x.flagged_mul y) = none ↔ x.ty ≠ y.ty) ∧
    ((x.flagged_and y) = none ↔ x.ty ≠ y.ty) ∧
    ((x.flagged_or y) = none ↔ x.ty ≠ y.ty) := by
  intro x y sgn
  refine ⟨?_, ?_, ?_, ?_, ?_, ?_, ?_, ?_, ?_, ?_, ?_, ?_, ?_, ?_, ?_, ?_⟩
  · simp only [Integer.add]
    exact checked_eq_none_iff
  · simp only [Integer.sub]
    exact checked_eq_none_iff
  · simp only [Integer.mul]
    exact checked_eq_none_iff
  · simp only [Integer.bitand]
    exact checked_eq_none_iff
  · simp only [Integer.bitor]
    exact checked_eq_none_iff
  · simp only [Integer.equal]
    exact checked_eq_none_iff
  · simp only [Integer.peq, Integer.equal]
    exact checked_eq_none_iff
  · simp only [Integer.less_than]
    exact checked_eq_none_iff
  · simp only [Integer.less_equal]
    exact checked_eq_none_iff
  · simp only [Integer.greater_than]
    exact checked_eq_none_iff
  · simp only [Integer.greater_equal]
    exact checked_eq_none_iff
  · simp only [Integer.flagged_add]
    exact checked_eq_none_iff
  · simp only [Integer.flagged_sub]
    exact checked_eq_none_iff
  · simp only [Integer.flagged_mul]
    exact checked_eq_none_iff
  · simp only [Integer.flagged_and]
    exact checked_eq_none_iff
  · simp only [Integer.flagged_or]
    exact checked_eq_none_iff

/-! ### Canonical form of operation results -/

/-- A machine integer is canonical when its backing value fits its width. -/
def canonical (x : Integer) : Prop := x.val < 2 ^ x.ty.bits

/-- Canonicity of an optional result (vacuous on the abort path). -/
def canonicalOpt : Option Integer → Prop
  | some r => canonical r
  | none => True

/-- The integer component of a flagged result equals the 64-bit
sign-extension of its own signed reinterpretation: all bits above the
declared width replicate the sign bit. -/
def signExtended : Option (Integer × Flags) → Prop
  | some (r, _) => r.val = intToU64 (toSigned r.ty.bits r.val)
  | none => True

/-- Claim C10 counterexample: the integer component of `flagged_add` at
width 8 on the raw operands 150 and 100 does not have all bits above the
declared width clear — its backing value is the 64-bit sign extension of
the wrapped result -6, with all 56 high bits set. -/
theorem flagged_result_not_canonical :
    (Integer.flagged_add ⟨.N8, 150⟩ ⟨.N8, 100⟩).map
      (fun p => decide (p.1.val < 2 ^ p.1.ty.bits)) = some false ∧
    (Integer.flagged_add ⟨.N8, 150⟩ ⟨.N8, 100⟩).map (fun p => p.1.val) =
      some 18446744073709551610 := by decide

/-- Claim C10 (amended): the wrapping arithmetic and bitwise operations,
`bitnot`, `cast`, `from_bool` and `from_bytes` always return canonical
(width-masked) integers even on non-canonical inputs; the integer
component of a flagged operation is instead stored as the 64-bit
sign-extension of the wrapped signed result, so its bits above the
declared width replicate the sign bit rather than being zero. -/
theorem results_canonical_amended :
    ∀ (x y : Integer) (dt : DataType) (sgn bv : Bool) (bs : List Byte),
    canonicalOpt (x.add y) ∧ canonicalOpt (x.sub y) ∧ canonicalOpt (x.mul y) ∧
    canonicalOpt (x.bitand y) ∧ canonicalOpt (x.bitor y) ∧
    canonical x.bitnot ∧ canonical (x.cast dt sgn) ∧
    canonical (Integer.from_bool bv dt) ∧
    canonicalOpt (Integer.from_bytes bs dt) ∧
    signExtended (x.flagged_add y) ∧ signExtended (x.flagged_sub y) ∧
    signExtended (x.flagged_mul y) ∧ signExtended (x.flagged_and y) ∧
    signExtended (x.flagged_or y) := by
  intro x y dt sgn bv bs
  have hw := dt_bits_pos x.ty
  have hw64 := dt_bits_le x.ty
  refine ⟨?_, ?_, ?_, ?_, ?_, ?_, ?_, ?_, ?_, ?_, ?_, ?_, ?_, ?_⟩
  · unfold Integer.add
    split
    · exact Nat.mod_lt _ (by positivity)
    · trivial
  · unfold Integer.sub
    split
    · exact Nat.mod_lt _ (by positivity)
    · trivial
  · unfold Integer.mul
    split
    · exact Nat.mod_lt _ (by positivity)
    · trivial
  · unfold Integer.bitand
    split
    · exact Nat.and_lt_two_pow _ (Nat.mod_lt _ (by positivity))
    · trivial
  · unfold Integer.bitor
    split
    · exact Nat.or_lt_two_pow (Nat.mod_lt _ (by positivity)) (Nat.mod_lt _ (by positivity))
    · trivial
  · show (2 ^ x.ty.bits - 1) - ubits x.ty.bits x.val < 2 ^ x.ty.bits
    have h : (0 : Nat) < 2 ^ x.ty.bits := by positivity
    omega
  · show ubits dt.bits _ < 2 ^ dt.bits
    exact Nat.mod_lt _ (by positivity)
  · show (if bv then 1 else 0) < 2 ^ dt.bits
    have h : (1 : Nat) < 2 ^ dt.bits :=
      Nat.one_lt_two_pow_iff.mpr (Nat.pos_iff_ne_zero.mp (dt_bits_pos dt))
    cases bv
    · simp
    · simpa using h
  · unfold Integer.from_bytes
    split
    next h =>
      show readLE (bs.take dt.bytes) < 2 ^ dt.bits
      have h1 := readLE_lt (bs.take dt.bytes)
      rw [List.length_take, Nat.min_def] at h1
      rw [two_pow_bits]
      split at h1
      · exact h1
      · omega
    next => trivial
  · unfold Integer.flagged_add
    split
    next h =>
      show intToU64 _ = intToU64 (toSigned x.ty.bits (intToU64 _))
      rw [decode_wrapped x.ty.bits hw hw64]
    next => trivial
  · unfold Integer.flagged_sub
    split
    next h =>
      show intToU64 _ = intToU64 (toSigned x.ty.bits (intToU64 _))
      rw [decode_wrapped x.ty.bits hw hw64]
    next => trivial
  · unfold Integer.flagged_mul
    split
    next h =>
      show intToU64 _ = intToU64 (toSigned x.ty.bits (intToU64 _))
      rw [decode_wrapped x.ty.bits hw hw64]
    next => trivial
  · unfold Integer.flagged_and
    split
    next h =>
      have h1 : -(2 ^ (x.ty.bits - 1) : Int) ≤
          sand x.ty.bits (toSigned x.ty.bits x.val) (toSigned x.ty.bits y.val) :=
        (toSigned_mem x.ty.bits hw _).1
      have h2 : sand x.ty.bits (toSigned x.ty.bits x.val) (toSigned x.ty.bits y.val) <
          2 ^ (x.ty.bits - 1) :=
        (toSigned_mem x.ty.bits hw _).2
      show intToU64 _ = intToU64 (toSigned x.ty.bits (intToU64 _))
      rw [toSigned_intToU64 x.ty.bits hw hw64 h1 h2]
    next => trivial
  · unfold Integer.flagged_or
    split
    next h =>
      have h1 : -(2 ^ (x.ty.bits - 1) : Int) ≤
          sor x.ty.bits (toSigned x.ty.bits x.val) (toSigned x.ty.bits y.val) :=
        (toSigned_mem x.ty.bits hw _).1
      have h2 : sor x.ty.bits (toSigned x.ty.bits x.val) (toSigned x.ty.bits y.val) <
          2 ^ (x.ty.bits - 1) :=
        (toSigned_mem x.ty.bits hw _).2
      show intToU64 _ = intToU64 (toSigned x.ty.bits (intToU64 _))
      rw [toSigned_intToU64 x.ty.bits hw hw64 h1 h2]
    next => trivial

/-! ### The flow graphs and the PDG construction (src/flow/pdg.rs) -/

/-- Modelled from the spec: the symbolic predicate attached to graph edges
is an opaque value, consumed here without inspection (`SymCondition` from
`crate::math` is not under src/). -/
structure SymCondition where
  id : Nat
deriving DecidableEq

/-- Modelled from the spec: an abstract storage location with a textual
form (`AbstractLocation` from `crate::flow` is not under src/). -/
structure AbstractLocation where
  text : String
deriving DecidableEq

/-- Modelled from the spec: a data-dependency-graph node is either a
storage location or a transient computation node (`DependencyNode` from
`crate::flow` is not under src/; pdg.rs matches only its `Location`
variant). -/
inductive DependencyNode where
  | Location (loc : AbstractLocation)
  | Computation (id : Nat)
deriving DecidableEq

/-- Modelled from the spec: a control-flow-graph node carries a block
address (shape taken from the uses `node.addr` in pdg.rs). -/
structure CFGNode where
  addr : Nat
deriving DecidableEq

/-- Modelled from the spec: the control-flow graph as consumed by pdg.rs —
nodes, per-node outgoing successor indices, and an edge-condition map
(the `HashMap` is embedded as an association list). -/
structure ControlFlowGraph where
  nodes : List CFGNode
  outgoing : List (List Nat)
  edges : List ((Nat × Nat) × SymCondition)
deriving DecidableEq

/-- Modelled from the spec: the data-dependency graph as consumed by
pdg.rs — nodes and an edge map whose values carry the primary condition
plus auxiliary data the PDG never reads. -/
structure DataDependencyGraph where
  nodes : List DependencyNode
  edges : List ((Nat × Nat) × (SymCondition × Unit))
deriving DecidableEq

/-- `DependenceNode` in src/flow/pdg.rs. -/
inductive DependenceNode where
  | ControlFlow (addr : Nat)
  | DataDependency (location : AbstractLocation)
deriving DecidableEq

/-- `EdgeKind` in src/flow/pdg.rs. -/
inductive EdgeKind where
  | ControlFlow
  | DataDependency
deriving DecidableEq

/-- `PDGEdge` in src/flow/pdg.rs. -/
structure PDGEdge where
  kind : EdgeKind
  condition : SymCondition
deriving DecidableEq

/-- The multi-edge mapping `HashMap<(usize, usize), Vec<PDGEdge>>`,
embedded as an association list (a built map always has unique keys). -/
abbrev EdgeMap := List ((Nat × Nat) × List PDGEdge)

/-- `ProgramDependenceGraph` in src/flow/pdg.rs. -/
structure ProgramDependenceGraph where
  nodes : List DependenceNode
  edges : EdgeMap
deriving DecidableEq

/-- `HashMap` lookup (`map.get(&k)`; `map[&k]` is this plus a panic on
`none`). -/
def lookupAssoc {κ β : Type} [DecidableEq κ] (m : List (κ × β)) (k : κ) : Option β :=
  (m.find? (fun p => decide (p.1 = k))).map (fun p => p.2)

/-- `edges.entry(k).or_insert(vec![]).push(e)`: append `e` to the list at
key `k`, creating the entry when absent. -/
def insertEdge : EdgeMap → (Nat × Nat) → PDGEdge → EdgeMap
  | [], k, e => [(k, [e])]
  | (k', es) :: m, k, e =>
      if k' = k then (k', es ++ [e]) :: m else (k', es) :: insertEdge m k e

/-- The inner loop of step 2 of `ProgramDependenceGraph::new`: insert one
control-flow edge per outgoing successor of CFG node `index`, keyed by the
assigned `pdgIndex`; the condition lookup `cfg.edges[&(index, out_index)]`
panics (modelled `none`) when the entry is missing. -/
def insertOutgoing (cfg : ControlFlowGraph) (index pdgIndex : Nat) :
    List Nat → EdgeMap → Option EdgeMap
  | [], edges => some edges
  | out :: rest, edges =>
      match lookupAssoc cfg.edges (index, out) with
      | some cond =>
          insertOutgoing cfg index pdgIndex rest
            (insertEdge edges (pdgIndex, out) ⟨.ControlFlow, cond⟩)
      | none => none

/-- Steps 1–2 of `ProgramDependenceGraph::new`: for each CFG node in input
order, its PDG index is the current node count, a `ControlFlow` node is
pushed, and its outgoing edges are inserted; `cfg.outgoing[index]` panics
(modelled `none`) when absent. -/
def buildCfgLoop (cfg : ControlFlowGraph) :
    List (Nat × CFGNode) → List DependenceNode → EdgeMap →
    Option (List DependenceNode × EdgeMap)
  | [], nodes, edges => some (nodes, edges)
  | (index, node) :: rest, nodes, edges =>
      match cfg.outgoing[index]? with
      | some outs =>
          match insertOutgoing cfg index nodes.length outs edges with
          | some edges' =>
              buildCfgLoop cfg rest (nodes ++ [.ControlFlow node.addr]) edges'
          | none => none
      | none => none

/-- Step 3 of `ProgramDependenceGraph::new`: allocate the next PDG index
for every location-typed DDG node in input order and record the remapping;
non-location nodes are skipped. -/
def buildDdgNodes :
    List (Nat × DependencyNode) → List DependenceNode → List (Nat × Nat) →
    List DependenceNode × List (Nat × Nat)
  | [], nodes, mapping => (nodes, mapping)
  | (index, node) :: rest, nodes, mapping =>
      match node with
      | .Location loc =>
          buildDdgNodes rest (nodes ++ [.DataDependency loc])
            (mapping ++ [(index, nodes.length)])
      | .Computation _ => buildDdgNodes rest nodes mapping

/-- Step 4 of `ProgramDependenceGraph::new`: a data-dependency edge is
inserted only when both endpoints have a recorded PDG index; other DDG
edges contribute nothing. -/
def insertDdgEdges (mapping : List (Nat × Nat)) :
    List ((Nat × Nat) × (SymCondition × Unit)) → EdgeMap → EdgeMap
  | [], edges => edges
  | ((s, t), v) :: rest, edges =>
      match lookupAssoc mapping s, lookupAssoc mapping t with
      | some ps, some pt =>
          insertDdgEdges mapping rest (insertEdge edges (ps, pt) ⟨.DataDependency, v.1⟩)
      | _, _ => insertDdgEdges mapping rest edges

/-- `ProgramDependenceGraph::new`. -/
def pdgNew (cfg : ControlFlowGraph) (ddg : DataDependencyGraph) :
    Option ProgramDependenceGraph :=
  match buildCfgLoop cfg cfg.nodes.enum [] [] with
  | some (nodes, edges) =>
      match buildDdgNodes ddg.nodes.enum nodes [] with
      | (nodes', mapping) => some ⟨nodes', insertDdgEdges mapping ddg.edges edges⟩
  | none => none

/-! ### Deterministic graph export (src/flow/visualize.rs) -/

/-- Lexicographic order on edge keys: the `Ord` instance of
`(usize, usize)` used by `sort_by_key`. -/
def keyLe (p q : Nat × Nat) : Prop := p.1 < q.1 ∨ (p.1 = q.1 ∧ p.2 ≤ q.2)

instance : DecidableRel keyLe := fun p q => by
  unfold keyLe
  infer_instance

/-- Strict lexicographic order on edge keys. -/
def keyLt (p q : Nat × Nat) : Prop := p.1 < q.1 ∨ (p.1 = q.1 ∧ p.2 < q.2)

/-- The sort step of `write_edges`: `edges.sort_by_key(|edge| edge.0)`.
The Rust sort is stable; over a `HashMap`'s unique keys any sorting
algorithm produces the same list, here insertion sort. -/
def sortEdges {T : Type} (m : List ((Nat × Nat) × T)) : List ((Nat × Nat) × T) :=
  List.insertionSort (fun a b => keyLe a.1 b.1) m

instance {T : Type} : IsTotal ((Nat × Nat) × T) (fun a b => keyLe a.1 b.1) :=
  ⟨fun a b => by unfold keyLe; omega⟩

instance {T : Type} : IsTrans ((Nat × Nat) × T) (fun a b => keyLe a.1 b.1) :=
  ⟨fun a b c hab hbc => by unfold keyLe at *; omega⟩

/-- One lowercase hexadecimal digit (`Nat.digitChar` renders 0–15 exactly
as Rust's `{:x}` does). -/
def hexDigit (d : Nat) : Char := Nat.digitChar d

/-- Digits of the `{:x}` rendering (the fuel bounds the recursion depth
and covers every 64-bit value). -/
def toHexAux : Nat → Nat → List Char
  | 0, _ => []
  | fuel + 1, n =>
      if n < 16 then [hexDigit n] else toHexAux fuel (n / 16) ++ [hexDigit (n % 16)]

/-- Lowercase hexadecimal rendering of an address (`{:x}`). -/
def toHex (n : Nat) : String := ⟨toHexAux 64 n⟩

/-- `write_header` in src/flow/visualize.rs. -/
def writeHeader (title : String) (fontsize : Nat) : String :=
  "digraph Flow \x7b\n" ++
  "graph [label=\"" ++ title ++ "\", labelloc=\"t\", fontsize=" ++
  toString fontsize ++ ", " ++ "fontname=\"Source Code Pro\"]\n" ++
  "node [fontname=\"Source Code Pro\"]\n" ++
  "edge [fontname=\"Source Code Pro\"]\n"

/-- `write_edges` in src/flow/visualize.rs: collect the entries, sort them
by key, then emit one edge statement per key in that order, delegating the
attribute text to the render callback. -/
def writeEdges {T : Type} (m : List ((Nat × Nat) × T))
    (writer : (Nat × Nat) → T → String) : String :=
  String.join ((sortEdges m).map
    (fun p => "b" ++ toString p.1.1 ++ " -> b" ++ toString p.1.2 ++ " [" ++
      writer p.1 p.2 ++ "]\n"))

/-- `write_footer` in src/flow/visualize.rs. -/
def writeFooter : String := "\x7d\n"

/-- The render callback `ProgramDependenceGraph::visualize` passes to
`write_edges`: one style line per edge in the key's list. -/
def pdgEdgeWriter (_k : Nat × Nat) (es : List PDGEdge) : String :=
  String.join (es.map (fun e =>
    match e.kind with
    | .ControlFlow => "style=solid, color=black\n"
    | .DataDependency => "style=dashed, color=blue\n"))

/-- One node statement of `ProgramDependenceGraph::visualize`. -/
def nodeLine (index : Nat) (node : DependenceNode) : String :=
  match node with
  | .ControlFlow addr =>
      "b" ++ toString index ++ " [label=\"ControlFlow: 0x" ++ toHex addr ++
        "\", shape=box]\n"
  | .DataDependency location =>
      "b" ++ toString index ++ " [label=\"DataDependency: " ++ location.text ++
        "\", shape=ellipse]\n"

/-- `ProgramDependenceGraph::visualize`, with the written stream collected
as a string. -/
def visualize (g : ProgramDependenceGraph) (title : String) : String :=
  writeHeader ("Program Dependence Graph for " ++ title) 40 ++
  String.join (g.nodes.enum.map (fun p => nodeLine p.1 p.2)) ++
  writeEdges g.edges pdgEdgeWriter ++
  writeFooter

/-! ### Determinism of the export -/

lemma keyLt_asymm {T : Type} (a b : (Nat × Nat) × T)
    (h1 : keyLt a.1 b.1) (h2 : keyLt b.1 a.1) : False := by
  unfold keyLt at *
  omega

/-- Two lists that are permutations of one another and both pairwise
ordered by an asymmetric relation are equal. -/
lemma perm_pairwise_asymm_eq {α : Type} (r : α → α → Prop)
    (hasym : ∀ a b, r a b → r b a → False) :
    ∀ (l₁ l₂ : List α), l₁.Perm l₂ → l₁.Pairwise r → l₂.Pairwise r → l₁ = l₂ := by
  intro l₁
  induction l₁ with
  | nil =>
      intro l₂ hp _ _
      have := hp.length_eq
      cases l₂ with
      | nil => rfl
      | cons b t => simp at this
  | cons a t ih =>
      intro l₂ hp h1 h2
      cases l₂ with
      | nil =>
          have := hp.length_eq
          simp at this
      | cons b t₂ =>
          have hab : a = b := by
            by_contra hne
            have ha : a ∈ b :: t₂ := hp.mem_iff.mp (List.mem_cons_self a t)
            rcases List.mem_cons.mp ha with h | h
            · exact hne h
            · have hba : r b a := (List.pairwise_cons.mp h2).1 a h
              have hb : b ∈ a :: t := hp.mem_iff.mpr (List.mem_cons_self b t₂)
              rcases List.mem_cons.mp hb with hq | hq
              · exact hne hq.symm
              · exact hasym a b ((List.pairwise_cons.mp h1).1 b hq) hba
          subst hab
          exact congrArg (List.cons a)
            (ih t₂ hp.cons_inv (List.pairwise_cons.mp h1).2 (List.pairwise_cons.mp h2).2)

/-- A list sorted by the key order whose keys are distinct is strictly
ascending by key. -/
lemma sorted_strict_of_nodup {T : Type} (l : List ((Nat × Nat) × T))
    (hs : List.Pairwise (fun (a b : (Nat × Nat) × T) => keyLe a.1 b.1) l)
    (hn : (l.map Prod.fst).Nodup) :
    List.Pairwise (fun (a b : (Nat × Nat) × T) => keyLt a.1 b.1) l := by
  have hn' : List.Pairwise (fun (a b : (Nat × Nat) × T) => a.1 ≠ b.1) l :=
    List.pairwise_map.mp hn
  refine (hs.and hn').imp ?_
  intro a b h
  rcases h with ⟨hle, hne⟩
  unfold keyLe at hle
  unfold keyLt
  rcases hle with h | ⟨he, hle2⟩
  · exact Or.inl h
  · refine Or.inr ⟨he, ?_⟩
    rcases lt_or_eq_of_le hle2 with h | h
    · exact h
    · exact absurd (Prod.ext he h) hne

/-- Sorting is insensitive to the input order when the keys are unique. -/
lemma sortEdges_eq_of_perm {T : Type} [DecidableEq T]
    (m₁ m₂ : List ((Nat × Nat) × T)) (hperm : m₁.Perm m₂)
    (hn : (m₁.map Prod.fst).Nodup) :
    sortEdges m₁ = sortEdges m₂ := by
  have hp : (sortEdges m₁).Perm (sortEdges m₂) :=
    (List.perm_insertionSort _ m₁).trans (hperm.trans (List.perm_insertionSort _ m₂).symm)
  have hn₂ : (m₂.map Prod.fst).Nodup := ((hperm.map Prod.fst).nodup_iff).mp hn
  have hsn₁ : ((sortEdges m₁).map Prod.fst).Nodup :=
    (((List.perm_insertionSort (fun (a b : (Nat × Nat) × T) => keyLe a.1 b.1) m₁).map
      Prod.fst).nodup_iff).mpr hn
  have hsn₂ : ((sortEdges m₂).map Prod.fst).Nodup :=
    (((List.perm_insertionSort (fun (a b : (Nat × Nat) × T) => keyLe a.1 b.1) m₂).map
      Prod.fst).nodup_iff).mpr hn₂
  have hs₁ := List.sorted_insertionSort (fun (a b : (Nat × Nat) × T) => keyLe a.1 b.1) m₁
  have hs₂ := List.sorted_insertionSort (fun (a b : (Nat × Nat) × T) => keyLe a.1 b.1) m₂
  exact perm_pairwise_asymm_eq _ keyLt_asymm _ _ hp
    (sorted_strict_of_nodup _ hs₁ hsn₁) (sorted_strict_of_nodup _ hs₂ hsn₂)

/-- Claim C2: `write_edges` first sorts the collected (source, target)
keys in ascending lexicographic order and emits exactly one edge statement
per key in that order (the sorted entry list is strictly ascending by key
and enumerates every key exactly once); consequently two graphs with
identical node sequences and identical edge-mapping contents, in whatever
insertion order, export byte-identical documents. -/
theorem export_deterministic : ∀ (g₁ g₂ : ProgramDependenceGraph) (title : String),
    g₁.nodes = g₂.nodes →
    g₁.edges.Perm g₂.edges →
    (g₁.edges.map Prod.fst).Nodup →
    visualize g₁ title = visualize g₂ title ∧
    List.Pairwise (fun (p q : (Nat × Nat) × List PDGEdge) => keyLt p.1 q.1)
      (sortEdges g₁.edges) ∧
    ((sortEdges g₁.edges).map Prod.fst).Perm (g₁.edges.map Prod.fst) := by
  intro g₁ g₂ title hnodes hperm hnodup
  refine ⟨?_, ?_, ?_⟩
  · unfold visualize writeEdges
    rw [hnodes, sortEdges_eq_of_perm _ _ hperm hnodup]
  · exact sorted_strict_of_nodup _
      (List.sorted_insertionSort (fun (a b : (Nat × Nat) × List PDGEdge) => keyLe a.1 b.1)
        g₁.edges)
      ((((List.perm_insertionSort (fun (a b : (Nat × Nat) × List PDGEdge) => keyLe a.1 b.1)
        g₁.edges).map Prod.fst).nodup_iff).mpr hnodup)
  · exact (List.perm_insertionSort _ _).map Prod.fst

/-- A two-node example PDG with its two edges stored in one order. -/
def exampleG1 : ProgramDependenceGraph :=
  ⟨[.ControlFlow 4096, .DataDependency ⟨"rax"⟩],
   [((0, 1), [⟨.ControlFlow, ⟨1⟩⟩]), ((1, 0), [⟨.DataDependency, ⟨2⟩⟩])]⟩

/-- The same logical PDG with its edges stored in the opposite order. -/
def exampleG2 : ProgramDependenceGraph :=
  ⟨[.ControlFlow 4096, .DataDependency ⟨"rax"⟩],
   [((1, 0), [⟨.DataDependency, ⟨2⟩⟩]), ((0, 1), [⟨.ControlFlow, ⟨1⟩⟩])]⟩

/-- Witness: the two insertion orders of the example PDG export identical
text, with strictly ascending edge keys. -/
theorem export_deterministic_witness :
    visualize exampleG1 "t" = visualize exampleG2 "t" ∧
    List.Pairwise (fun (p q : (Nat × Nat) × List PDGEdge) => keyLt p.1 q.1)
      (sortEdges exampleG1.edges) ∧
    ((sortEdges exampleG1.edges).map Prod.fst).Perm (exampleG1.edges.map Prod.fst) :=
  export_deterministic exampleG1 exampleG2 "t" rfl (by decide) (by decide)

/-! ### Shape of the fused node space -/

/-- The PDG node a DDG node gives rise to, when any. -/
def locNode : DependencyNode → Option DependenceNode
  | .Location loc => some (.DataDependency loc)
  | .Computation _ => none

/-- Whether a DDG node is location-typed. -/
def isLocation : DependencyNode → Bool
  | .Location _ => true
  | .Computation _ => false

lemma buildCfgLoop_nodes (cfg : ControlFlowGraph) :
    ∀ (l : List (Nat × CFGNode)) (nodes : List DependenceNode) (edges : EdgeMap)
      (nodes' : List DependenceNode) (edges' : EdgeMap),
      buildCfgLoop cfg l nodes edges = some (nodes', edges') →
      nodes' = nodes ++ l.map (fun p => DependenceNode.ControlFlow p.2.addr) := by
  intro l
  induction l with
  | nil =>
      intro nodes edges nodes' edges' h
      simp only [buildCfgLoop, Option.some.injEq, Prod.mk.injEq] at h
      simp [h.1.symm]
  | cons p rest ih =>
      intro nodes edges nodes' edges' h
      obtain ⟨index, node⟩ := p
      simp only [buildCfgLoop] at h
      cases houts : cfg.outgoing[index]? with
      | none => rw [houts] at h; simp at h
      | some outs =>
          rw [houts] at h
          dsimp only at h
          cases hins : insertOutgoing cfg index nodes.length outs edges with
          | none => rw [hins] at h; simp at h
          | some edges₂ =>
              rw [hins] at h
              dsimp only at h
              rw [ih _ _ _ _ h, List.map_cons, List.append_assoc, List.singleton_append]

lemma buildDdgNodes_nodes :
    ∀ (l : List (Nat × DependencyNode)) (nodes : List DependenceNode)
      (mapping : List (Nat × Nat)),
      (buildDdgNodes l nodes mapping).1 = nodes ++ l.filterMap (fun p => locNode p.2) := by
  intro l
  induction l with
  | nil => intro nodes mapping; simp [buildDdgNodes]
  | cons p rest ih =>
      intro nodes mapping
      obtain ⟨index, node⟩ := p
      cases node with
      | Location loc =>
          simp only [buildDdgNodes, ih, List.filterMap_cons, locNode]
          rw [List.append_assoc, List.singleton_append]
      | Computation i =>
          simp only [buildDdgNodes, ih, List.filterMap_cons, locNode]

lemma enumFrom_map_cf :
    ∀ (l : List CFGNode) (n : Nat),
      (List.enumFrom n l).map (fun p => DependenceNode.ControlFlow p.2.addr) =
        l.map (fun nd => DependenceNode.ControlFlow nd.addr) := by
  intro l
  induction l with
  | nil => intro n; rfl
  | cons a t ih => intro n; simp only [List.enumFrom, List.map_cons, ih]

lemma enumFrom_filterMap_loc :
    ∀ (l : List DependencyNode) (n : Nat),
      (List.enumFrom n l).filterMap (fun p => locNode p.2) = l.filterMap locNode := by
  intro l
  induction l with
  | nil => intro n; rfl
  | cons a t ih =>
      intro n
      simp only [List.enumFrom, List.filterMap_cons]
      cases h : locNode a <;> simp [ih]

lemma filterMap_locNode_length (l : List DependencyNode) :
    (l.filterMap locNode).length = (l.filter (fun n => isLocation n)).length := by
  induction l with
  | nil => rfl
  | cons a t ih =>
      cases a <;> simp [List.filterMap_cons, List.filter_cons, locNode, isLocation, ih]

/-- Claim C3: a successfully built PDG has exactly `n + k` nodes for a CFG
with `n` nodes and a DDG with `k` location-typed nodes; its first `n` nodes
are `ControlFlow` variants carrying the CFG addresses in CFG input order
and the remaining `k` are `DataDependency` variants in the relative order
of the location-typed DDG nodes (non-location DDG nodes contribute no
node). -/
theorem pdg_nodes_shape : ∀ (cfg : ControlFlowGraph) (ddg : DataDependencyGraph)
    (g : ProgramDependenceGraph), pdgNew cfg ddg = some g →
    g.nodes = cfg.nodes.map (fun n => DependenceNode.ControlFlow n.addr) ++
      ddg.nodes.filterMap locNode ∧
    g.nodes.length = cfg.nodes.length +
      (ddg.nodes.filter (fun n => isLocation n)).length := by
  intro cfg ddg g h
  unfold pdgNew at h
  cases hb : buildCfgLoop cfg cfg.nodes.enum [] [] with
  | none => rw [hb] at h; simp at h
  | some pr =>
      obtain ⟨nodes, edges⟩ := pr
      rw [hb] at h
      simp only [Option.some.injEq] at h
      have hgn : g.nodes = (buildDdgNodes ddg.nodes.enum nodes []).1 := by
        rw [← h]
      have h1 : nodes = cfg.nodes.map (fun n => DependenceNode.ControlFlow n.addr) := by
        have := buildCfgLoop_nodes cfg cfg.nodes.enum [] [] nodes edges hb
        rw [this, List.nil_append, List.enum, enumFrom_map_cf]
      have h2 : (buildDdgNodes ddg.nodes.enum nodes []).1 =
          nodes ++ ddg.nodes.filterMap locNode := by
        rw [buildDdgNodes_nodes, List.enum, enumFrom_filterMap_loc]
      constructor
      · rw [hgn, h2, h1]
      · rw [hgn, h2, h1]
        simp [filterMap_locNode_length]

/-- A concrete CFG: two blocks with one conditional edge. -/
def exampleCfg : ControlFlowGraph :=
  ⟨[⟨4096⟩, ⟨4100⟩], [[1], []], [((0, 1), ⟨7⟩)]⟩

/-- A concrete DDG: one computation node and two locations, one edge
between the locations and one edge touching the computation node. -/
def exampleDdg : DataDependencyGraph :=
  ⟨[.Computation 0, .Location ⟨"rax"⟩, .Location ⟨"rbx"⟩],
   [((1, 2), (⟨9⟩, ())), ((0, 1), (⟨10⟩, ()))]⟩

/-- The PDG the example pair builds. -/
def examplePdg : ProgramDependenceGraph :=
  ⟨[.ControlFlow 4096, .ControlFlow 4100, .DataDependency ⟨"rax"⟩, .DataDependency ⟨"rbx"⟩],
   [((0, 1), [⟨.ControlFlow, ⟨7⟩⟩]), ((2, 3), [⟨.DataDependency, ⟨9⟩⟩])]⟩

/-- Witness: the example CFG/DDG pair builds the expected node sequence. -/
theorem pdg_nodes_shape_witness :
    examplePdg.nodes =
      exampleCfg.nodes.map (fun n => DependenceNode.ControlFlow n.addr) ++
        exampleDdg.nodes.filterMap locNode ∧
    examplePdg.nodes.length = exampleCfg.nodes.length +
      (exampleDdg.nodes.filter (fun n => isLocation n)).length :=
  pdg_nodes_shape exampleCfg exampleDdg examplePdg (by decide)

/-! ### Provenance of data-dependency edges -/

/-- Every (key, edge) pair stored in an edge mapping. -/
def allEdges (m : EdgeMap) : List ((Nat × Nat) × PDGEdge) :=
  m.flatMap (fun p => p.2.map (fun e => (p.1, e)))

lemma allEdges_insertEdge (k : Nat × Nat) (e : PDGEdge) :
    ∀ m : EdgeMap, (allEdges (insertEdge m k e)).Perm ((k, e) :: allEdges m) := by
  intro m
  induction m with
  | nil => simp [insertEdge, allEdges]
  | cons p m ih =>
      obtain ⟨k', es⟩ := p
      simp only [insertEdge]
      split
      next hk =>
        subst hk
        simp only [allEdges, List.flatMap_cons, List.map_append, List.append_assoc,
          List.singleton_append]
        exact List.perm_middle
      next hk =>
        simp only [allEdges, List.flatMap_cons]
        refine List.Perm.trans (List.Perm.append_left _ ih) ?_
        exact List.perm_middle

lemma mem_allEdges_insertEdge {q : (Nat × Nat) × PDGEdge} {m : EdgeMap}
    {k : Nat × Nat} {e : PDGEdge} (h : q ∈ allEdges (insertEdge m k e)) :
    q = (k, e) ∨ q ∈ allEdges m := by
  have := (allEdges_insertEdge k e m).mem_iff.mp h
  simpa using this

lemma insertOutgoing_allEdges_mem (cfg : ControlFlowGraph) (index pdgIndex : Nat) :
    ∀ (outs : List Nat) (edges edges' : EdgeMap),
      insertOutgoing cfg index pdgIndex outs edges = some edges' →
      ∀ q ∈ allEdges edges', q ∈ allEdges edges ∨ q.2.kind = EdgeKind.ControlFlow := by
  intro outs
  induction outs with
  | nil =>
      intro edges edges' h q hq
      simp only [insertOutgoing, Option.some.injEq] at h
      rw [h]
      exact Or.inl hq
  | cons out rest ih =>
      intro edges edges' h q hq
      simp only [insertOutgoing] at h
      cases hl : lookupAssoc cfg.edges (index, out) with
      | none => rw [hl] at h; simp at h
      | some cond =>
          rw [hl] at h
          dsimp only at h
          rcases ih _ _ h q hq with hmem | hcf
          · rcases mem_allEdges_insertEdge hmem with heq | hold
            · right
              rw [heq]
            · exact Or.inl hold
          · exact Or.inr hcf

lemma buildCfgLoop_allEdges_mem (cfg : ControlFlowGraph) :
    ∀ (l : List (Nat × CFGNode)) (nodes : List DependenceNode) (edges : EdgeMap)
      (nodes' : List DependenceNode) (edges' : EdgeMap),
      buildCfgLoop cfg l nodes edges = some (nodes', edges') →
      ∀ q ∈ allEdges edges', q ∈ allEdges edges ∨ q.2.kind = EdgeKind.ControlFlow := by
  intro l
  induction l with
  | nil =>
      intro nodes edges nodes' edges' h q hq
      simp only [buildCfgLoop, Option.some.injEq, Prod.mk.injEq] at h
      rw [h.2]
      exact Or.inl hq
  | cons p rest ih =>
      intro nodes edges nodes' edges' h q hq
      obtain ⟨index, node⟩ := p
      simp only [buildCfgLoop] at h
      cases houts : cfg.outgoing[index]? with
      | none => rw [houts] at h; simp at h
      | some outs =>
          rw [houts] at h
          dsimp only at h
          cases hins : insertOutgoing cfg index nodes.length outs edges with
          | none => rw [hins] at h; simp at h
          | some edges₂ =>
              rw [hins] at h
              dsimp only at h
              rcases ih _ _ _ _ h q hq with hmem | hcf
              · exact insertOutgoing_allEdges_mem cfg index nodes.length outs edges edges₂
                  hins q hmem
              · exact Or.inr hcf

lemma insertDdgEdges_allEdges_mem (mapping : List (Nat × Nat)) :
    ∀ (l : List ((Nat × Nat) × (SymCondition × Unit))) (edges : EdgeMap),
      ∀ q ∈ allEdges (insertDdgEdges mapping l edges),
        q ∈ allEdges edges ∨
        ∃ s t v, ((s, t), v) ∈ l ∧ lookupAssoc mapping s = some q.1.1 ∧
          lookupAssoc mapping t = some q.1.2 ∧ q.2 = ⟨EdgeKind.DataDependency, v.1⟩ := by
  intro l
  induction l with
  | nil =>
      intro edges q hq
      exact Or.inl hq
  | cons p rest ih =>
      intro edges q hq
      obtain ⟨⟨s, t⟩, v⟩ := p
      simp only [insertDdgEdges] at hq
      cases hs : lookupAssoc mapping s with
      | none =>
          rw [hs] at hq
          dsimp only at hq
          rcases ih _ q hq with hmem | ⟨s', t', v', hm, h1, h2, h3⟩
          · exact Or.inl hmem
          · exact Or.inr ⟨s', t', v', List.mem_cons_of_mem _ hm, h1, h2, h3⟩
      | some ps =>
          rw [hs] at hq
          cases ht : lookupAssoc mapping t with
          | none =>
              rw [ht] at hq
              dsimp only at hq
              rcases ih _ q hq with hmem | ⟨s', t', v', hm, h1, h2, h3⟩
              · exact Or.inl hmem
              · exact Or.inr ⟨s', t', v', List.mem_cons_of_mem _ hm, h1, h2, h3⟩
          | some pt =>
              rw [ht] at hq
              dsimp only at hq
              rcases ih _ q hq with hmem | ⟨s', t', v', hm, h1, h2, h3⟩
              · rcases mem_allEdges_insertEdge hmem with heq | hold
                · refine Or.inr ⟨s, t, v, List.mem_cons_self _ _, ?_, ?_, ?_⟩
                  · rw [heq]
                    exact hs
                  · rw [heq]
                    exact ht
                  · rw [heq]
                · exact Or.inl hold
              · exact Or.inr ⟨s', t', v', List.mem_cons_of_mem _ hm, h1, h2, h3⟩

lemma buildDdgNodes_mapping_mem :
    ∀ (l : List (Nat × DependencyNode)) (nodes : List DependenceNode)
      (mapping : List (Nat × Nat)) (s p : Nat),
      (s, p) ∈ (buildDdgNodes l nodes mapping).2 →
      (s, p) ∈ mapping ∨ ∃ loc, (s, DependencyNode.Location loc) ∈ l := by
  intro l
  induction l with
  | nil =>
      intro nodes mapping s p h
      exact Or.inl h
  | cons q rest ih =>
      intro nodes mapping s p h
      obtain ⟨index, node⟩ := q
      cases node with
      | Location loc =>
          rcases ih _ _ s p h with hmem | ⟨loc', hm⟩
          · rcases List.mem_append.mp hmem with hm | hm
            · exact Or.inl hm
            · simp only [List.mem_singleton, Prod.mk.injEq] at hm
              exact Or.inr ⟨loc, by rw [hm.1]; exact List.mem_cons_self _ _⟩
          · exact Or.inr ⟨loc', List.mem_cons_of_mem _ hm⟩
      | Computation i =>
          rcases ih _ _ s p h with hmem | ⟨loc', hm⟩
          · exact Or.inl hmem
          · exact Or.inr ⟨loc', List.mem_cons_of_mem _ hm⟩

lemma lookupAssoc_mem {κ β : Type} [DecidableEq κ] {m : List (κ × β)} {k : κ} {b : β}
    (h : lookupAssoc m k = some b) : (k, b) ∈ m := by
  unfold lookupAssoc at h
  cases hf : m.find? (fun p => decide (p.1 = k)) with
  | none => rw [hf] at h; simp at h
  | some pr =>
      rw [hf] at h
      simp at h
      have hm := List.mem_of_find?_eq_some hf
      have hp := List.find?_some hf
      simp only [decide_eq_true_eq] at hp
      have : pr = (k, b) := by
        obtain ⟨k', b'⟩ := pr
        simp only at hp h
        rw [hp, h]
      rw [← this]
      exact hm

lemma mem_enum_getElem {α : Type} {l : List α} {i : Nat} {x : α}
    (h : (i, x) ∈ l.enum) : l[i]? = some x := by
  have := List.mem_enumFrom h
  obtain ⟨-, hlt, hx⟩ := this
  simp only [Nat.zero_add] at hlt
  simp only [Nat.sub_zero] at hx
  rw [List.getElem?_eq_getElem (by omega)]
  rw [← hx]

/-- Claim C8: every `DataDependency` edge of a built PDG comes from a DDG
edge whose both endpoints are location-typed nodes (the only ones with a
recorded PDG index), carrying that edge's primary condition; DDG edges
with a non-location endpoint never produce a PDG edge. -/
theorem ddg_edges_require_locations :
    ∀ (cfg : ControlFlowGraph) (ddg : DataDependencyGraph)
      (g : ProgramDependenceGraph), pdgNew cfg ddg = some g →
    ∀ k e, (k, e) ∈ allEdges g.edges → e.kind = EdgeKind.DataDependency →
      ∃ s t v ls lt, ((s, t), v) ∈ ddg.edges ∧
        ddg.nodes[s]? = some (DependencyNode.Location ls) ∧
        ddg.nodes[t]? = some (DependencyNode.Location lt) ∧
        e.condition = v.1 := by
  intro cfg ddg g h k e hmem hkind
  unfold pdgNew at h
  cases hb : buildCfgLoop cfg cfg.nodes.enum [] [] with
  | none => rw [hb] at h; simp at h
  | some pr =>
      obtain ⟨nodes, edges⟩ := pr
      rw [hb] at h
      simp only [Option.some.injEq] at h
      have hge : g.edges = insertDdgEdges (buildDdgNodes ddg.nodes.enum nodes []).2
          ddg.edges edges := by rw [← h]
      rw [hge] at hmem
      rcases insertDdgEdges_allEdges_mem _ _ _ _ hmem with hold | ⟨s, t, v, hm, h1, h2, h3⟩
      · rcases buildCfgLoop_allEdges_mem cfg _ _ _ _ _ hb _ hold with hnil | hcf
        · simp [allEdges] at hnil
        · rw [hkind] at hcf
          cases hcf
      · have hsm := buildDdgNodes_mapping_mem ddg.nodes.enum nodes [] s k.1
          (lookupAssoc_mem h1)
        have htm := buildDdgNodes_mapping_mem ddg.nodes.enum nodes [] t k.2
          (lookupAssoc_mem h2)
        rcases hsm with hin | ⟨ls, hsl⟩
        · simp at hin
        rcases htm with hin | ⟨lt, htl⟩
        · simp at hin
        refine ⟨s, t, v, ls, lt, hm, mem_enum_getElem hsl, mem_enum_getElem htl, ?_⟩
        have h3' : e = ⟨EdgeKind.DataDependency, v.1⟩ := h3
        rw [h3']

/-- Witness: in the example pair, the single data-dependency edge of the
built PDG comes from the DDG edge between the two location nodes. -/
theorem ddg_edges_require_locations_witness :
    ∃ s t v ls lt, ((s, t), v) ∈ exampleDdg.edges ∧
      exampleDdg.nodes[s]? = some (DependencyNode.Location ls) ∧
      exampleDdg.nodes[t]? = some (DependencyNode.Location lt) ∧
      (⟨EdgeKind.DataDependency, ⟨9⟩⟩ : PDGEdge).condition = v.1 :=
  ddg_edges_require_locations exampleCfg exampleDdg examplePdg (by decide)
    (2, 3) ⟨EdgeKind.DataDependency, ⟨9⟩⟩ (by decide) rfl

/-! ### Behaviour of construction on malformed inputs -/

/-- An index that does not name a location-typed DDG node — because it is
out of range or because the node there is a non-location node — never
receives a PDG index. -/
lemma mapping_lookup_unmapped (ddg : DataDependencyGraph)
    (nodes : List DependenceNode) (s : Nat)
    (hs : ∀ loc, ddg.nodes[s]? ≠ some (DependencyNode.Location loc)) :
    lookupAssoc (buildDdgNodes ddg.nodes.enum nodes []).2 s = none := by
  cases hl : lookupAssoc (buildDdgNodes ddg.nodes.enum nodes []).2 s with
  | none => rfl
  | some p =>
      exfalso
      have hmem := lookupAssoc_mem hl
      rcases buildDdgNodes_mapping_mem _ _ _ _ _ hmem with hin | ⟨loc, hen⟩
      · simp at hin
      · exact hs loc (mem_enum_getElem hen)

/-- An empty control-flow graph. -/
def cfgEmpty : ControlFlowGraph := ⟨[], [], []⟩

/-- A data-dependency graph with no nodes whose single edge references the
nonexistent node index 0 on both ends. -/
def ddgOob : DataDependencyGraph := ⟨[], [((0, 0), (⟨0⟩, ()))]⟩

/-- Claim C9 counterexample: with an empty CFG and a DDG whose only edge
references the out-of-range node index 0, `ProgramDependenceGraph::new`
does not fail at construction time — it succeeds, silently ignoring the
edge. -/
theorem pdg_new_accepts_oob_edge : pdgNew cfgEmpty ddgOob = some ⟨[], []⟩ := by decide

/-- Claim C9 (amended): construction does not check node indices. A DDG
edge with at least one endpoint that has no recorded PDG mapping — because
that index is out of range or names a non-location node, on either end —
is silently dropped: the built PDG is identical to the one built without
that edge. Construction aborts exactly when the CFG phase (the
`cfg.outgoing` indexing and `cfg.edges` condition lookups of steps 1–2)
aborts, never because of a DDG edge; such an abort does occur, e.g. for a
CFG node with a successor but an empty condition map. -/
theorem pdg_new_failfast_amended :
    (∀ (cfg : ControlFlowGraph) (ddg : DataDependencyGraph) (s t : Nat)
        (v : SymCondition × Unit),
        ((∀ loc, ddg.nodes[s]? ≠ some (DependencyNode.Location loc)) ∨
          (∀ loc, ddg.nodes[t]? ≠ some (DependencyNode.Location loc))) →
        pdgNew cfg ⟨ddg.nodes, ((s, t), v) :: ddg.edges⟩ = pdgNew cfg ddg) ∧
    (∀ (cfg : ControlFlowGraph) (ddg : DataDependencyGraph),
        pdgNew cfg ddg = none ↔ buildCfgLoop cfg cfg.nodes.enum [] [] = none) ∧
    (∀ (a c : Nat) (ddg : DataDependencyGraph),
        pdgNew ⟨[⟨a⟩], [[c]], []⟩ ddg = none) := by
  refine ⟨?_, ?_, ?_⟩
  · intro cfg ddg s t v hun
    unfold pdgNew
    cases hb : buildCfgLoop cfg cfg.nodes.enum [] [] with
    | none => rfl
    | some pr =>
        obtain ⟨nodes, edges⟩ := pr
        dsimp only
        rcases hmd : buildDdgNodes ddg.nodes.enum nodes [] with ⟨nodes', mapping⟩
        rcases hun with hsu | htu
        · have hnone : lookupAssoc mapping s = none := by
            have h0 := mapping_lookup_unmapped ddg nodes s hsu
            rw [hmd] at h0
            exact h0
          simp only [insertDdgEdges, hnone]
        · have hnone : lookupAssoc mapping t = none := by
            have h0 := mapping_lookup_unmapped ddg nodes t htu
            rw [hmd] at h0
            exact h0
          cases hls : lookupAssoc mapping s with
          | none => simp only [insertDdgEdges, hls]
          | some ps => simp only [insertDdgEdges, hls, hnone]
  · intro cfg ddg
    unfold pdgNew
    cases hb : buildCfgLoop cfg cfg.nodes.enum [] [] with
    | none => simp
    | some pr =>
        obtain ⟨nodes, edges⟩ := pr
        dsimp only
        rcases hmd : buildDdgNodes ddg.nodes.enum nodes [] with ⟨nodes', mapping⟩
        simp
  · intro a c ddg
    rfl

/-- Witness: at concrete inputs an out-of-range source endpoint and a
non-location target endpoint each drop the edge without failing, failure
coincides with the CFG phase's, and the missing-condition CFG lookup
aborts. -/
theorem pdg_new_failfast_amended_witness :
    pdgNew cfgEmpty ⟨[], [((0, 0), (⟨0⟩, ()))]⟩ = pdgNew cfgEmpty ⟨[], []⟩ ∧
    pdgNew ⟨[⟨5⟩], [[1]], [((0, 1), ⟨3⟩)]⟩
        ⟨[.Location ⟨"rax"⟩, .Computation 0], [((0, 1), (⟨4⟩, ()))]⟩ =
      pdgNew ⟨[⟨5⟩], [[1]], [((0, 1), ⟨3⟩)]⟩ ⟨[.Location ⟨"rax"⟩, .Computation 0], []⟩ ∧
    (pdgNew cfgEmpty ddgOob = none ↔
      buildCfgLoop cfgEmpty cfgEmpty.nodes.enum [] [] = none) ∧
    pdgNew ⟨[⟨0⟩], [[0]], []⟩ ⟨[], []⟩ = none :=
  ⟨pdg_new_failfast_amended.1 cfgEmpty ⟨[], []⟩ 0 0 (⟨0⟩, ())
      (Or.inl (fun loc h => by simp at h)),
   pdg_new_failfast_amended.1 ⟨[⟨5⟩], [[1]], [((0, 1), ⟨3⟩)]⟩
      ⟨[.Location ⟨"rax"⟩, .Computation 0], []⟩ 0 1 (⟨4⟩, ())
      (Or.inr (fun loc h => by simp at h)),
   pdg_new_failfast_amended.2.1 cfgEmpty ddgOob,
   pdg_new_failfast_amended.2.2 0 0 ⟨[], []⟩⟩

end Symflow
